import Mathlib

/-!
Ramped differential-drive controller (`motor_controls.cpp`).

A shallow embedding of the keyboard teleoperation program: the four global
ramping variables, the five motion commands, the ramp step `updateMotors`,
the key dispatch of `main` and its polling loop.  External collaborators
(pigpio, the terminal, standard output) are modelled by logs inside the
machine state and by the stream of bytes the terminal delivers per tick.

C++ `int` is modelled as `Int`; the two additions of `updateMotors` are
reduced into the 32-bit two's-complement range by `wrapInt`.
-/

namespace MotorControls

/-! ## Constants -/

/-- BCM pin of the left motor (`#define LEFT_MOTOR 17`). -/
def LEFT_MOTOR : Nat := 17

/-- BCM pin of the right motor (`#define RIGHT_MOTOR 18`). -/
def RIGHT_MOTOR : Nat := 18

/-- Neutral pulse width in microseconds (`#define PULSE_NEUTRAL 1500`). -/
def PULSE_NEUTRAL : Int := 1500

/-- Full-forward pulse width (`#define PULSE_FORWARD 1750`). -/
def PULSE_FORWARD : Int := 1750

/-- Full-reverse pulse width (`#define PULSE_REVERSE 1250`). -/
def PULSE_REVERSE : Int := 1250

/-- Smallest value of a 32-bit `int`. -/
def INT_MIN : Int := -2147483648

/-- Largest value of a 32-bit `int`. -/
def INT_MAX : Int := 2147483647

/-- Reduction of a mathematical integer into the 32-bit two's-complement range,
the result of `int` arithmetic on the target platform. -/
def wrapInt (x : Int) : Int := (x + 2147483648) % 4294967296 - 2147483648

/-! ## Machine state -/

/-- The program state: the four globals of the source, the `running` local of
`main`, and the observable effects on the collaborators. -/
structure Machine where
  /-- Global `leftPulse`: the value currently commanded on the left channel. -/
  leftPulse : Int
  /-- Global `rightPulse`. -/
  rightPulse : Int
  /-- Global `leftTarget`: the value the left channel ramps toward. -/
  leftTarget : Int
  /-- Global `rightTarget`. -/
  rightTarget : Int
  /-- Local `running` of `main`. -/
  running : Bool
  /-- Every `gpioServo (pin, pulse)` call so far, oldest first. -/
  servo : List (Nat × Int)
  /-- Every chunk written to `std::cout` so far, oldest first. -/
  cout : List String
  /-- Every chunk written to `std::cerr` so far, oldest first. -/
  cerr : List String
  /-- Whether `gpioTerminate` has been called. -/
  terminated : Bool
  deriving DecidableEq, Repr

/-- The state at program start: the global initialisers of lines 20-24, no
effects yet. -/
def initial : Machine :=
  { leftPulse := PULSE_NEUTRAL
    rightPulse := PULSE_NEUTRAL
    leftTarget := PULSE_NEUTRAL
    rightTarget := PULSE_NEUTRAL
    running := false
    servo := []
    cout := []
    cerr := []
    terminated := false }

/-- The collaborator call `gpioServo(pin, pulse)`: recorded in the log. -/
def gpioServo (pin : Nat) (pulse : Int) (s : Machine) : Machine :=
  { s with servo := s.servo ++ [(pin, pulse)] }

/-- The collaborator call `gpioTerminate()`. -/
def gpioTerminate (s : Machine) : Machine :=
  { s with terminated := true }

/-- One `std::cout << chunk`. -/
def print (chunk : String) (s : Machine) : Machine :=
  { s with cout := s.cout ++ [chunk] }

/-! ## Input sampler -/

/-- Function `getKey` (lines 27-46): `poll` is what the terminal holds when the
tick samples it, `some c` when a byte is waiting (`bytesWaiting > 0`, the byte
is read) and `none` otherwise, in which case the result is the zero byte. -/
def getKey (poll : Option Char) : Char :=
  match poll with
  | some ch => ch
  | none => Char.ofNat 0

/-! ## Ramp step -/

/-- Function `updateMotors` (lines 49-64). -/
def updateMotors (s : Machine) : Machine :=
  let rampRate : Int := 10
  let s :=
    if s.leftPulse < s.leftTarget then
      { s with leftPulse := min (wrapInt (s.leftPulse + rampRate)) s.leftTarget }
    else if s.leftPulse > s.leftTarget then
      { s with leftPulse := max (wrapInt (s.leftPulse - rampRate)) s.leftTarget }
    else s
  let s :=
    if s.rightPulse < s.rightTarget then
      { s with rightPulse := min (wrapInt (s.rightPulse + rampRate)) s.rightTarget }
    else if s.rightPulse > s.rightTarget then
      { s with rightPulse := max (wrapInt (s.rightPulse - rampRate)) s.rightTarget }
    else s
  let s := gpioServo LEFT_MOTOR s.leftPulse s
  gpioServo RIGHT_MOTOR s.rightPulse s

/-! ## Motion commands -/

/-- Function `stop` (lines 67-70). -/
def stop (s : Machine) : Machine :=
  { s with leftTarget := PULSE_NEUTRAL, rightTarget := PULSE_NEUTRAL }

/-- Function `forward` (lines 72-75). -/
def forward (s : Machine) : Machine :=
  { s with leftTarget := PULSE_FORWARD, rightTarget := PULSE_FORWARD }

/-- Function `backward` (lines 77-80). -/
def backward (s : Machine) : Machine :=
  { s with leftTarget := PULSE_REVERSE, rightTarget := PULSE_REVERSE }

/-- Function `turnLeft` (lines 82-85). -/
def turnLeft (s : Machine) : Machine :=
  { s with leftTarget := PULSE_REVERSE, rightTarget := PULSE_FORWARD }

/-- Function `turnRight` (lines 87-90). -/
def turnRight (s : Machine) : Machine :=
  { s with leftTarget := PULSE_FORWARD, rightTarget := PULSE_REVERSE }

/-! ## Main program -/

/-- The `switch (key)` statement of `main` (lines 112-138); a key matching no
case label falls through the statement without effect. -/
def handleKey (key : Char) (s : Machine) : Machine :=
  if key = 'w' ∨ key = 'W' then
    forward (print "Forward\n" s)
  else if key = 's' ∨ key = 'S' then
    backward (print "Backward\n" s)
  else if key = 'a' ∨ key = 'A' then
    turnLeft (print "Turn Left\n" s)
  else if key = 'd' ∨ key = 'D' then
    turnRight (print "Turn Right\n" s)
  else if key = ' ' then
    stop (print "Stop\n" s)
  else if key = 'q' ∨ key = 'Q' then
    { stop (print "Quit\n" s) with running := false }
  else s

/-- The body of the `while` loop (lines 110-141): sample, dispatch, ramp.  The
closing `sleep_for` has no effect on the state. -/
def loopBody (poll : Option Char) (s : Machine) : Machine :=
  let key := getKey poll
  let s := handleKey key s
  updateMotors s

/-- The loop `while (running)` (lines 109-142) run over the terminal samples of
the successive ticks; it stops early once `running` is cleared, and returns
with `running` still set when the samples are used up first. -/
def mainLoop : List (Option Char) → Machine → Machine
  | [], s => s
  | poll :: rest, s => if s.running then mainLoop rest (loopBody poll s) else s

/-- The banner of lines 98-104. -/
def banner (s : Machine) : Machine :=
  let s := print "=== Sabertooth WASD Control (Smooth Ramp) ===\n" s
  let s := print "W - Forward\n" s
  let s := print "S - Backward\n" s
  let s := print "A - Turn Left\n" s
  let s := print "D - Turn Right\n" s
  let s := print "Space - Stop\n" s
  print "Q - Quit\n\n" s

/-- Function `main` (lines 92-147), given the result of `gpioInitialise()` and
the terminal samples of the ticks observed.  The second component is the exit
code, `none` while the program is still inside the loop. -/
def main (gpioInitialise : Int) (polls : List (Option Char)) : Machine × Option Int :=
  if gpioInitialise < 0 then
    ({ initial with cerr := initial.cerr ++ ["Failed to initialize pigpio.\n"] }, some 1)
  else
    let s := banner initial
    let s := stop s
    let s := { s with running := true }
    let s := mainLoop polls s
    if s.running then (s, none)
    else
      let s := stop s
      let s := gpioTerminate s
      (s, some 0)

/-! ## Vocabulary of the properties -/

/-- The five motion commands, as values. -/
inductive Intent where
  | stop | forward | backward | turnLeft | turnRight
  deriving DecidableEq, Repr

/-- Run the command named by an intent. -/
def Intent.apply : Intent → Machine → Machine
  | .stop => MotorControls.stop
  | .forward => MotorControls.forward
  | .backward => MotorControls.backward
  | .turnLeft => MotorControls.turnLeft
  | .turnRight => MotorControls.turnRight

/-- An operation on the drive state: a motion command or one ramp step. -/
inductive Op where
  | intent (i : Intent)
  | update
  deriving DecidableEq, Repr

/-- Run one operation. -/
def Op.apply : Op → Machine → Machine
  | .intent i => i.apply
  | .update => updateMotors

/-- Run a sequence of operations, first element first. -/
def runOps : List Op → Machine → Machine
  | [], s => s
  | op :: ops, s => runOps ops (op.apply s)

/-- Apply `updateMotors` `n` times. -/
def updates : Nat → Machine → Machine
  | 0, s => s
  | n + 1, s => updates n (updateMotors s)

/-- A pulse value within `[PULSE_REVERSE, PULSE_FORWARD]`. -/
def InBounds (x : Int) : Prop := PULSE_REVERSE ≤ x ∧ x ≤ PULSE_FORWARD

instance (x : Int) : Decidable (InBounds x) := by
  unfold InBounds; infer_instance

/-- A value representable in a 32-bit `int`. -/
def IsInt (x : Int) : Prop := INT_MIN ≤ x ∧ x ≤ INT_MAX

instance (x : Int) : Decidable (IsInt x) := by
  unfold IsInt; infer_instance

/-- The number of ticks `ceil(|t - c| / 10)` of a ramp from `c` to `t`. -/
def rampTicks (c t : Int) : Nat := ((t - c).natAbs + 9) / 10

/-- One channel of `updateMotors`: the new current value for current `p` and
target `t`. -/
def rampStep (p t : Int) : Int :=
  if p < t then min (wrapInt (p + 10)) t
  else if p > t then max (wrapInt (p - 10)) t
  else p

/-- The channel value after `n` ramp steps toward a fixed target. -/
def rampIter : Nat → Int → Int → Int
  | 0, p, _ => p
  | n + 1, p, t => rampIter n (rampStep p t) t

/-- The two motor channels. -/
inductive Channel where
  | left | right
  deriving DecidableEq, Repr

/-- The current (commanded) pulse of a channel: `leftPulse` or `rightPulse`. -/
def Machine.current (s : Machine) : Channel → Int
  | .left => s.leftPulse
  | .right => s.rightPulse

/-- The target pulse of a channel: `leftTarget` or `rightTarget`. -/
def Machine.target (s : Machine) : Channel → Int
  | .left => s.leftTarget
  | .right => s.rightTarget

/-- All four ramping variables lie within the pulse bounds. -/
def AllInBounds (s : Machine) : Prop :=
  InBounds s.leftPulse ∧ InBounds s.rightPulse ∧ InBounds s.leftTarget ∧ InBounds s.rightTarget

/-- Ten ticks into a right turn from start: currents (1600, 1400), targets
(1750, 1250). -/
def midTurn : Machine := updates 10 (turnRight initial)

/-- The state `midTurn` after `turnLeft()`: same currents, targets
(1250, 1750). -/
def midTurnReversed : Machine := turnLeft midTurn

/-- The state in which `main` enters the loop: banner printed, `stop()` called,
`running` set. -/
def loopEntry : Machine := { stop (banner initial) with running := true }

/-- The keys that end the loop. -/
def isQuitKey (key : Char) : Prop := key = 'q' ∨ key = 'Q'

instance (key : Char) : Decidable (isQuitKey key) := by
  unfold isQuitKey; infer_instance

/-- The key bindings as the transcript contract words them: the output line an
accepted key produces, nothing for any other key. -/
def specActionLine (key : Char) : List String :=
  if key = 'w' ∨ key = 'W' then ["Forward\n"]
  else if key = 's' ∨ key = 'S' then ["Backward\n"]
  else if key = 'a' ∨ key = 'A' then ["Turn Left\n"]
  else if key = 'd' ∨ key = 'D' then ["Turn Right\n"]
  else if key = ' ' then ["Stop\n"]
  else if key = 'q' ∨ key = 'Q' then ["Quit\n"]
  else []

/-- The transcript the contract prescribes for a sequence of sampled keys: the
lines of the accepted keys in tick order, up to and including the first
Quit. -/
def specTranscript : List Char → List String
  | [] => []
  | key :: keys =>
    if isQuitKey key then specActionLine key
    else specActionLine key ++ specTranscript keys

/-- All four ramping variables are multiples of 10 within the pulse bounds. -/
def Granular (s : Machine) : Prop :=
  AllInBounds s ∧ 10 ∣ s.leftPulse ∧ 10 ∣ s.rightPulse ∧ 10 ∣ s.leftTarget ∧ 10 ∣ s.rightTarget

/-- The key `w`, 24 ticks without a key, then `q`. -/
def forwardThenQuit : List (Option Char) :=
  some 'w' :: (List.replicate 24 none ++ [some 'q'])

/-- The arithmetic one channel of `updateMotors` evaluates is defined in `int`:
the current `p` is an `int` value, and the one sum or difference the taken
branch computes (`p + rampRate` below the target `t`, `p - rampRate` above it)
is representable. -/
def StepDefined (p t : Int) : Prop :=
  IsInt p ∧ (p < t → p + 10 ≤ INT_MAX) ∧ (t < p → INT_MIN ≤ p - 10)

instance (p t : Int) : Decidable (StepDefined p t) := by
  unfold StepDefined; infer_instance

/-- A left channel near the top of the `int` range, far above its target. -/
def highAboveTarget : Machine :=
  { initial with leftPulse := 2147483644, leftTarget := 0 }

/-- A left channel near the top of the `int` range, five above its target. -/
def highNearTarget : Machine :=
  { initial with leftPulse := 2147483644, leftTarget := 2147483639 }

/-- The state reached from start by `forward()` and 25 ramp steps: both
currents converged at 1750. -/
def forwardConverged : Machine :=
  runOps (Op.intent .forward :: List.replicate 25 Op.update) initial

/-! ## Auxiliary lemmas and the properties -/

theorem wrapInt_of_isInt (x : Int) (h : IsInt x) : wrapInt x = x := by
  unfold IsInt INT_MIN INT_MAX at h
  unfold wrapInt
  omega

theorem updateMotors_leftPulse (s : Machine) :
    (updateMotors s).leftPulse = rampStep s.leftPulse s.leftTarget := by
  unfold updateMotors rampStep gpioServo
  dsimp only
  split_ifs <;> rfl

theorem updateMotors_rightPulse (s : Machine) :
    (updateMotors s).rightPulse = rampStep s.rightPulse s.rightTarget := by
  unfold updateMotors rampStep gpioServo
  dsimp only
  split_ifs <;> rfl

theorem updateMotors_leftTarget (s : Machine) :
    (updateMotors s).leftTarget = s.leftTarget := by
  unfold updateMotors gpioServo
  dsimp only
  split_ifs <;> rfl

theorem updateMotors_rightTarget (s : Machine) :
    (updateMotors s).rightTarget = s.rightTarget := by
  unfold updateMotors gpioServo
  dsimp only
  split_ifs <;> rfl

theorem updateMotors_running (s : Machine) :
    (updateMotors s).running = s.running := by
  unfold updateMotors gpioServo
  dsimp only
  split_ifs <;> rfl

theorem updateMotors_servo (s : Machine) :
    (updateMotors s).servo =
      s.servo ++ [(LEFT_MOTOR, rampStep s.leftPulse s.leftTarget),
                  (RIGHT_MOTOR, rampStep s.rightPulse s.rightTarget)] := by
  unfold updateMotors rampStep gpioServo
  dsimp only
  split_ifs <;> simp

/-- Extensional description of one ramp step. -/
theorem updateMotors_eq (s : Machine) :
    updateMotors s =
      { s with
        leftPulse := rampStep s.leftPulse s.leftTarget
        rightPulse := rampStep s.rightPulse s.rightTarget
        servo := s.servo ++ [(LEFT_MOTOR, rampStep s.leftPulse s.leftTarget),
                  (RIGHT_MOTOR, rampStep s.rightPulse s.rightTarget)] } := by
  unfold updateMotors rampStep gpioServo
  dsimp only
  split_ifs <;> simp

theorem updates_leftTarget (n : Nat) (s : Machine) :
    (updates n s).leftTarget = s.leftTarget := by
  induction n generalizing s with
  | zero => rfl
  | succ k ih => rw [updates, ih, updateMotors_leftTarget]

theorem updates_rightTarget (n : Nat) (s : Machine) :
    (updates n s).rightTarget = s.rightTarget := by
  induction n generalizing s with
  | zero => rfl
  | succ k ih => rw [updates, ih, updateMotors_rightTarget]

theorem updates_leftPulse (n : Nat) (s : Machine) :
    (updates n s).leftPulse = rampIter n s.leftPulse s.leftTarget := by
  induction n generalizing s with
  | zero => rfl
  | succ k ih => rw [updates, ih, updateMotors_leftPulse, updateMotors_leftTarget, rampIter]

theorem updates_rightPulse (n : Nat) (s : Machine) :
    (updates n s).rightPulse = rampIter n s.rightPulse s.rightTarget := by
  induction n generalizing s with
  | zero => rfl
  | succ k ih => rw [updates, ih, updateMotors_rightPulse, updateMotors_rightTarget, rampIter]

/-- Without overflow a ramp step is the clamped move of the source text. -/
theorem rampStep_of_isInt (p t : Int) (hlo : INT_MIN ≤ p - 10) (hhi : p + 10 ≤ INT_MAX) :
    rampStep p t = if p < t then min (p + 10) t else if p > t then max (p - 10) t else p := by
  unfold INT_MIN at hlo
  unfold INT_MAX at hhi
  unfold rampStep wrapInt
  have h1 : (p + 10 + 2147483648) % 4294967296 - 2147483648 = p + 10 := by omega
  have h2 : (p - 10 + 2147483648) % 4294967296 - 2147483648 = p - 10 := by omega
  rw [h1, h2]

theorem rampStep_inBounds (p t : Int) (hp : InBounds p) (ht : InBounds t) :
    InBounds (rampStep p t) := by
  unfold InBounds PULSE_REVERSE PULSE_FORWARD at *
  rw [rampStep_of_isInt p t (by unfold INT_MIN; omega) (by unfold INT_MAX; omega)]
  split_ifs <;> omega

/-- Closed form of an upward ramp inside the bounds. -/
theorem rampIter_up (k : Nat) (p t : Int) (hp : InBounds p) (ht : InBounds t) (h : p ≤ t) :
    rampIter k p t = min (p + 10 * k) t := by
  induction k generalizing p with
  | zero => simp [rampIter, h]
  | succ n ih =>
    have hb := rampStep_inBounds p t hp ht
    have hs := rampStep_of_isInt p t
      (by unfold InBounds PULSE_REVERSE at hp; unfold INT_MIN; omega)
      (by unfold InBounds PULSE_FORWARD at hp; unfold INT_MAX; omega)
    have hle : rampStep p t ≤ t := by rw [hs]; split_ifs <;> omega
    rw [rampIter, ih (rampStep p t) hb hle, hs]
    push_cast
    split_ifs <;> omega

/-- Closed form of a downward ramp inside the bounds. -/
theorem rampIter_down (k : Nat) (p t : Int) (hp : InBounds p) (ht : InBounds t) (h : t ≤ p) :
    rampIter k p t = max (p - 10 * k) t := by
  induction k generalizing p with
  | zero => simp [rampIter, h]
  | succ n ih =>
    have hb := rampStep_inBounds p t hp ht
    have hs := rampStep_of_isInt p t
      (by unfold InBounds PULSE_REVERSE at hp; unfold INT_MIN; omega)
      (by unfold InBounds PULSE_FORWARD at hp; unfold INT_MAX; omega)
    have hle : t ≤ rampStep p t := by rw [hs]; split_ifs <;> omega
    rw [rampIter, ih (rampStep p t) hb hle, hs]
    push_cast
    split_ifs <;> omega

/-- A channel inside the bounds reaches its target after exactly `rampTicks`
steps, not before, and stays there. -/
theorem rampIter_converges (c t : Int) (hc : InBounds c) (ht : InBounds t) :
    rampIter (rampTicks c t) c t = t ∧
    (∀ k, k < rampTicks c t → rampIter k c t ≠ t) ∧
    (∀ m, rampTicks c t ≤ m → rampIter m c t = t) := by
  rcases le_total c t with h | h
  · refine ⟨?_, ?_, ?_⟩
    · rw [rampIter_up _ c t hc ht h]; unfold rampTicks; omega
    · intro k hk; rw [rampIter_up _ c t hc ht h]; unfold rampTicks at hk; omega
    · intro m hm; rw [rampIter_up _ c t hc ht h]; unfold rampTicks at hm; omega
  · refine ⟨?_, ?_, ?_⟩
    · rw [rampIter_down _ c t hc ht h]; unfold rampTicks; omega
    · intro k hk; rw [rampIter_down _ c t hc ht h]; unfold rampTicks at hk; omega
    · intro m hm; rw [rampIter_down _ c t hc ht h]; unfold rampTicks at hm; omega

theorem updateMotors_current (s : Machine) (ch : Channel) :
    (updateMotors s).current ch = rampStep (s.current ch) (s.target ch) := by
  cases ch
  · exact updateMotors_leftPulse s
  · exact updateMotors_rightPulse s

theorem updateMotors_target (s : Machine) (ch : Channel) :
    (updateMotors s).target ch = s.target ch := by
  cases ch
  · exact updateMotors_leftTarget s
  · exact updateMotors_rightTarget s

theorem updates_current (n : Nat) (s : Machine) (ch : Channel) :
    (updates n s).current ch = rampIter n (s.current ch) (s.target ch) := by
  cases ch
  · exact updates_leftPulse n s
  · exact updates_rightPulse n s

theorem updates_target (n : Nat) (s : Machine) (ch : Channel) :
    (updates n s).target ch = s.target ch := by
  cases ch
  · exact updates_leftTarget n s
  · exact updates_rightTarget n s

/-- The tick count `rampTicks` is the ceiling of the distance divided by the
step. -/
theorem rampTicks_eq_ceil (c t : Int) :
    rampTicks c t = ⌈(|((t - c : Int) : ℚ)|) / 10⌉₊ := by
  symm
  have ha : |((t - c : Int) : ℚ)| = (((t - c).natAbs : Nat) : ℚ) := by
    rw [Nat.cast_natAbs, Int.cast_abs]
  rw [ha]
  unfold rampTicks
  generalize (t - c).natAbs = a
  apply le_antisymm
  · rw [Nat.ceil_le, div_le_iff₀ (by norm_num)]
    have : a ≤ (a + 9) / 10 * 10 := by omega
    exact_mod_cast this
  · by_contra hlt
    push_neg at hlt
    have h1 : ⌈(a : ℚ) / 10⌉₊ + 1 ≤ (a + 9) / 10 := hlt
    have h2 : (a : ℚ) / 10 ≤ ⌈(a : ℚ) / 10⌉₊ := Nat.le_ceil _
    rw [div_le_iff₀ (by norm_num)] at h2
    have h3 : a ≤ ⌈(a : ℚ) / 10⌉₊ * 10 := by exact_mod_cast h2
    omega

/-- C1. Convergence: a channel whose current and target both lie in
[1250, 1750] reaches its target after exactly `n = ceil(|t - c| / 10)`
applications of `updateMotors` (the target staying fixed), differs from it
after every smaller number of applications, and equals it after every larger
one. -/
theorem updateMotors_convergence (s : Machine) (ch : Channel)
    (hc : InBounds (s.current ch)) (ht : InBounds (s.target ch)) :
    (rampTicks (s.current ch) (s.target ch) : ℚ)
        = ⌈(|((s.target ch - s.current ch : Int) : ℚ)|) / 10⌉₊ ∧
    (∀ j, (updates j s).target ch = s.target ch) ∧
    (updates (rampTicks (s.current ch) (s.target ch)) s).current ch = s.target ch ∧
    (∀ k, k < rampTicks (s.current ch) (s.target ch) →
      (updates k s).current ch ≠ s.target ch) ∧
    (∀ m, rampTicks (s.current ch) (s.target ch) ≤ m →
      (updates m s).current ch = s.target ch) := by
  obtain ⟨h1, h2, h3⟩ := rampIter_converges (s.current ch) (s.target ch) hc ht
  refine ⟨?_, fun j => updates_target j s ch, ?_, ?_, ?_⟩
  · rw [rampTicks_eq_ceil]
  · rw [updates_current]; exact h1
  · intro k hk; rw [updates_current]; exact h2 k hk
  · intro m hm; rw [updates_current]; exact h3 m hm

/-- C1 at the left channel of the state after `forward()` from start: 25 ticks
from 1500 to 1750. -/
theorem updateMotors_convergence_witness :
    InBounds ((forward initial).current .left) ∧
    InBounds ((forward initial).target .left) ∧
    (updates 25 (forward initial)).current .left = 1750 ∧
    (∀ k, k < 25 → (updates k (forward initial)).current .left ≠ 1750) ∧
    (∀ m, 25 ≤ m → (updates m (forward initial)).current .left = 1750) :=
  ⟨by decide, by decide,
   (updateMotors_convergence (forward initial) .left (by decide) (by decide)).2.2.1,
   (updateMotors_convergence (forward initial) .left (by decide) (by decide)).2.2.2.1,
   (updateMotors_convergence (forward initial) .left (by decide) (by decide)).2.2.2.2⟩

/-- C2. No overshoot: when `current + 10` and `current - 10` are representable,
one `updateMotors` leaves the channel's new current between its old current
and its target, inclusive. -/
theorem updateMotors_no_overshoot (s : Machine) (ch : Channel)
    (hlo : INT_MIN ≤ s.current ch - 10) (hhi : s.current ch + 10 ≤ INT_MAX) :
    min (s.current ch) (s.target ch) ≤ (updateMotors s).current ch ∧
    (updateMotors s).current ch ≤ max (s.current ch) (s.target ch) := by
  rw [updateMotors_current, rampStep_of_isInt _ _ hlo hhi]
  split_ifs <;> omega

/-- C2 at a state three microseconds short of its target. -/
theorem updateMotors_no_overshoot_witness :
    INT_MIN ≤ ({ initial with rightPulse := 1747, rightTarget := 1750 } : Machine).current .right - 10 ∧
    ({ initial with rightPulse := 1747, rightTarget := 1750 } : Machine).current .right + 10 ≤ INT_MAX ∧
    min 1747 1750 ≤ (updateMotors { initial with rightPulse := 1747, rightTarget := 1750 }).current .right ∧
    (updateMotors { initial with rightPulse := 1747, rightTarget := 1750 }).current .right ≤ max 1747 1750 :=
  ⟨by decide, by decide,
   updateMotors_no_overshoot { initial with rightPulse := 1747, rightTarget := 1750 } .right (by decide) (by decide)⟩

theorem inBounds_neutral : InBounds PULSE_NEUTRAL := by decide

theorem inBounds_forward : InBounds PULSE_FORWARD := by decide

theorem inBounds_reverse : InBounds PULSE_REVERSE := by decide

theorem intent_allInBounds (i : Intent) (s : Machine) (h : AllInBounds s) :
    AllInBounds (i.apply s) := by
  obtain ⟨h1, h2, _, _⟩ := h
  cases i <;> refine ⟨h1, h2, ?_, ?_⟩ <;>
    first | exact inBounds_neutral | exact inBounds_forward | exact inBounds_reverse

theorem updateMotors_allInBounds (s : Machine) (h : AllInBounds s) :
    AllInBounds (updateMotors s) := by
  obtain ⟨h1, h2, h3, h4⟩ := h
  refine ⟨?_, ?_, ?_, ?_⟩
  · rw [updateMotors_leftPulse]; exact rampStep_inBounds _ _ h1 h3
  · rw [updateMotors_rightPulse]; exact rampStep_inBounds _ _ h2 h4
  · rw [updateMotors_leftTarget]; exact h3
  · rw [updateMotors_rightTarget]; exact h4

theorem runOps_allInBounds (ops : List Op) (s : Machine) (h : AllInBounds s) :
    AllInBounds (runOps ops s) := by
  induction ops generalizing s with
  | nil => exact h
  | cons op ops ih =>
    apply ih
    cases op with
    | intent i => exact intent_allInBounds i s h
    | update => exact updateMotors_allInBounds s h

/-- C3. Bounds invariant: after every finite sequence of motion commands and
`updateMotors` calls from the initial state, `leftPulse`, `rightPulse`,
`leftTarget` and `rightTarget` all lie in [1250, 1750]. -/
theorem bounds_invariant (ops : List Op) :
    1250 ≤ (runOps ops initial).leftPulse ∧ (runOps ops initial).leftPulse ≤ 1750 ∧
    1250 ≤ (runOps ops initial).rightPulse ∧ (runOps ops initial).rightPulse ≤ 1750 ∧
    1250 ≤ (runOps ops initial).leftTarget ∧ (runOps ops initial).leftTarget ≤ 1750 ∧
    1250 ≤ (runOps ops initial).rightTarget ∧ (runOps ops initial).rightTarget ≤ 1750 := by
  have h := runOps_allInBounds ops initial ⟨by decide, by decide, by decide, by decide⟩
  obtain ⟨⟨a1, a2⟩, ⟨b1, b2⟩, ⟨c1, c2⟩, ⟨d1, d2⟩⟩ := h
  exact ⟨a1, a2, b1, b2, c1, c2, d1, d2⟩

theorem intent_current (i : Intent) (s : Machine) (ch : Channel) :
    (i.apply s).current ch = s.current ch := by
  cases i <;> cases ch <;> rfl

theorem intent_target_inBounds (i : Intent) (s : Machine) (ch : Channel) :
    InBounds ((i.apply s).target ch) := by
  cases i <;> cases ch <;>
    first | exact inBounds_neutral | exact inBounds_forward | exact inBounds_reverse

theorem intent_target_indep (i : Intent) (s₁ s₂ : Machine) (ch : Channel) :
    (i.apply s₁).target ch = (i.apply s₂).target ch := by
  cases i <;> cases ch <;> rfl

/-- A ramp step toward a target inside the bounds, from any `int` value. -/
theorem rampStep_toward (p t : Int) (hp : IsInt p) (ht : InBounds t) :
    rampStep p t = if p < t then min (p + 10) t else if p > t then max (p - 10) t else p := by
  unfold IsInt INT_MIN INT_MAX at hp
  unfold InBounds PULSE_REVERSE PULSE_FORWARD at ht
  unfold rampStep wrapInt
  split_ifs <;> omega

/-- C4. Redirect correctness: two states with the same current values, given
the same motion command and then one `updateMotors`, end with the same current
values whatever their old targets were; each channel's current has moved
toward the new target, its remaining distance being
`max (|newTarget - current| - 10) 0`. -/
theorem redirect_correct (i : Intent) (s₁ s₂ : Machine)
    (hl : s₁.leftPulse = s₂.leftPulse) (hr : s₁.rightPulse = s₂.rightPulse)
    (hil : IsInt s₁.leftPulse) (hir : IsInt s₁.rightPulse) :
    (updateMotors (i.apply s₁)).leftPulse = (updateMotors (i.apply s₂)).leftPulse ∧
    (updateMotors (i.apply s₁)).rightPulse = (updateMotors (i.apply s₂)).rightPulse ∧
    (∀ ch : Channel,
      |(i.apply s₁).target ch - (updateMotors (i.apply s₁)).current ch|
        = max (|(i.apply s₁).target ch - s₁.current ch| - 10) 0 ∧
      min (s₁.current ch) ((i.apply s₁).target ch) ≤ (updateMotors (i.apply s₁)).current ch ∧
      (updateMotors (i.apply s₁)).current ch ≤ max (s₁.current ch) ((i.apply s₁).target ch)) := by
  have key : ∀ ch : Channel, s₁.current ch = s₂.current ch := by
    intro ch; cases ch
    · exact hl
    · exact hr
  have hint : ∀ ch : Channel, IsInt (s₁.current ch) := by
    intro ch; cases ch
    · exact hil
    · exact hir
  have same : ∀ ch : Channel, (updateMotors (i.apply s₁)).current ch
      = (updateMotors (i.apply s₂)).current ch := by
    intro ch
    rw [updateMotors_current, updateMotors_current, intent_current, intent_current,
      intent_target_indep i s₁ s₂ ch, key ch]
  refine ⟨same .left, same .right, ?_⟩
  intro ch
  have hb := intent_target_inBounds i s₁ ch
  rw [updateMotors_current, intent_current, rampStep_toward _ _ (hint ch) hb]
  generalize (i.apply s₁).target ch = t at hb ⊢
  generalize s₁.current ch = p
  simp only [abs_eq_max_neg]
  refine ⟨?_, ?_, ?_⟩ <;> split_ifs <;> omega

/-- C4 at two mid-turn states that agree on the currents (1600, 1400) and have
opposite old targets, both redirected by `backward()`. -/
theorem redirect_correct_witness :
    midTurn.leftPulse = midTurnReversed.leftPulse ∧
    midTurn.leftTarget ≠ midTurnReversed.leftTarget ∧
    (updateMotors (Intent.backward.apply midTurn)).leftPulse
      = (updateMotors (Intent.backward.apply midTurnReversed)).leftPulse ∧
    (updateMotors (Intent.backward.apply midTurn)).rightPulse
      = (updateMotors (Intent.backward.apply midTurnReversed)).rightPulse :=
  ⟨by decide, by decide,
   (redirect_correct .backward midTurn midTurnReversed
      (by decide) (by decide) (by decide) (by decide)).1,
   (redirect_correct .backward midTurn midTurnReversed
      (by decide) (by decide) (by decide) (by decide)).2.1⟩

/-- C5. Literal forward ramp: from the initial state the key `w` sets both
targets to 1750; one `updateMotors` then gives currents (1510, 1510), 25 calls
in total give (1750, 1750), and the 26th call leaves them there. -/
theorem forward_ramp_literal :
    (initial.leftPulse, initial.rightPulse) = (1500, 1500) ∧
    ((handleKey 'w' initial).leftTarget, (handleKey 'w' initial).rightTarget) = (1750, 1750) ∧
    ((updates 1 (handleKey 'w' initial)).leftPulse,
      (updates 1 (handleKey 'w' initial)).rightPulse) = (1510, 1510) ∧
    ((updates 25 (handleKey 'w' initial)).leftPulse,
      (updates 25 (handleKey 'w' initial)).rightPulse) = (1750, 1750) ∧
    ((updates 26 (handleKey 'w' initial)).leftPulse,
      (updates 26 (handleKey 'w' initial)).rightPulse) = (1750, 1750) := by
  set_option maxRecDepth 100000 in decide

/-- C6. Turn asymmetry: from the initial state the key `a` sets
`leftTarget = 1250` and `rightTarget = 1750`; with no further key the currents
reach (1250, 1750) after 25 calls of `updateMotors`, not before, and keep that
value after every later call. -/
theorem turn_asymmetry :
    (handleKey 'a' initial).leftTarget = 1250 ∧
    (handleKey 'a' initial).rightTarget = 1750 ∧
    (∀ k, k < 25 →
      ((updates k (handleKey 'a' initial)).leftPulse,
        (updates k (handleKey 'a' initial)).rightPulse) ≠ (1250, 1750)) ∧
    (∀ m, 25 ≤ m →
      ((updates m (handleKey 'a' initial)).leftPulse,
        (updates m (handleKey 'a' initial)).rightPulse) = (1250, 1750)) := by
  have hl := rampIter_converges 1500 1250 (by decide) (by decide)
  have hr := rampIter_converges 1500 1750 (by decide) (by decide)
  have nl : rampTicks 1500 1250 = 25 := by decide
  have nr : rampTicks 1500 1750 = 25 := by decide
  rw [nl] at hl
  rw [nr] at hr
  have e1 : (handleKey 'a' initial).leftPulse = 1500 := by decide
  have e2 : (handleKey 'a' initial).rightPulse = 1500 := by decide
  have e3 : (handleKey 'a' initial).leftTarget = 1250 := by decide
  have e4 : (handleKey 'a' initial).rightTarget = 1750 := by decide
  refine ⟨e3, e4, ?_, ?_⟩
  · intro k hk h
    rw [updates_leftPulse, e1, e3] at h
    exact hl.2.1 k hk (congrArg Prod.fst h)
  · intro m hm
    rw [updates_leftPulse, updates_rightPulse, e1, e2, e3, e4, hl.2.2 m hm, hr.2.2 m hm]

theorem mainLoop_stopped (polls : List (Option Char)) (s : Machine) (h : s.running = false) :
    mainLoop polls s = s := by
  cases polls with
  | nil => rfl
  | cons p ps => simp [mainLoop, h]

theorem handleKey_quit (key : Char) (s : Machine) (hkey : key = 'q' ∨ key = 'Q') :
    handleKey key s = { stop (print "Quit\n" s) with running := false } := by
  rcases hkey with rfl | rfl <;> simp [handleKey]

/-- The loop always hands over a state with `running` cleared once the samples
contain a quit key. -/
theorem mainLoop_quit_running (pre rest : List (Option Char)) (key : Char) (s : Machine)
    (hkey : key = 'q' ∨ key = 'Q') :
    (mainLoop (pre ++ some key :: rest) s).running = false := by
  induction pre generalizing s with
  | nil =>
    cases hrun : s.running with
    | false => rw [List.nil_append, mainLoop_stopped _ _ hrun, hrun]
    | true =>
      have h1 : (loopBody (some key) s).running = false := by
        unfold loopBody
        rw [updateMotors_running]
        simp only [getKey]
        rw [handleKey_quit key s hkey]
      rw [List.nil_append, mainLoop, if_pos hrun, mainLoop_stopped _ _ h1, h1]
  | cons p ps ih =>
    cases hrun : s.running with
    | false => rw [mainLoop_stopped _ _ hrun, hrun]
    | true =>
      rw [List.cons_append, mainLoop, if_pos hrun]
      exact ih _

/-- C7. Safety stop on quit: from every state of the running loop, the tick
whose key is `q` or `Q` sets both targets to 1500 and clears `running` before
that tick's `updateMotors`; that call is the last step of the loop; and `main`
then passes through `stop` and `gpioTerminate`, returning 0 with both targets
at 1500. -/
theorem quit_safety_stop (s : Machine) (key : Char) (rest : List (Option Char))
    (hrun : s.running = true) (hkey : key = 'q' ∨ key = 'Q') :
    (handleKey key s).leftTarget = 1500 ∧
    (handleKey key s).rightTarget = 1500 ∧
    (handleKey key s).running = false ∧
    loopBody (some key) s = updateMotors (handleKey key s) ∧
    mainLoop (some key :: rest) s = updateMotors (handleKey key s) ∧
    (mainLoop (some key :: rest) s).leftTarget = 1500 ∧
    (mainLoop (some key :: rest) s).rightTarget = 1500 ∧
    (mainLoop (some key :: rest) s).running = false ∧
    (∀ (init : Int) (pre : List (Option Char)), 0 ≤ init →
      (main init (pre ++ some key :: rest)).2 = some 0 ∧
      (main init (pre ++ some key :: rest)).1.terminated = true ∧
      (main init (pre ++ some key :: rest)).1.leftTarget = 1500 ∧
      (main init (pre ++ some key :: rest)).1.rightTarget = 1500) := by
  have hq := handleKey_quit key s hkey
  have hbody : loopBody (some key) s = updateMotors (handleKey key s) := rfl
  have hr : (updateMotors (handleKey key s)).running = false := by
    rw [updateMotors_running, hq]
  have hloop : mainLoop (some key :: rest) s = updateMotors (handleKey key s) := by
    rw [mainLoop, if_pos hrun, hbody, mainLoop_stopped _ _ hr]
  refine ⟨by rw [hq]; rfl, by rw [hq]; rfl, by rw [hq], hbody, hloop, ?_, ?_, ?_, ?_⟩
  · rw [hloop, updateMotors_leftTarget, hq]; rfl
  · rw [hloop, updateMotors_rightTarget, hq]; rfl
  · rw [hloop]; exact hr
  · intro init pre hinit
    have hnot : ¬ init < 0 := not_lt.mpr hinit
    have hfin := mainLoop_quit_running pre rest key
      { stop (banner initial) with running := true } hkey
    unfold main
    rw [if_neg hnot]
    simp only [hfin]
    exact ⟨rfl, rfl, rfl, rfl⟩

/-- C7 on the state the loop is entered with, for the key `q` followed by more
input that is never read. -/
theorem quit_safety_stop_witness :
    ({ stop (banner initial) with running := true } : Machine).running = true ∧
    (mainLoop [some 'q', some 'w'] { stop (banner initial) with running := true }).leftTarget
      = 1500 ∧
    (main 0 [some 'w', none, some 'q', some 'w']).2 = some 0 :=
  ⟨rfl,
   (quit_safety_stop { stop (banner initial) with running := true } 'q' [some 'w']
      rfl (Or.inl rfl)).2.2.2.2.2.1,
   ((quit_safety_stop { stop (banner initial) with running := true } 'q' [some 'w']
      rfl (Or.inl rfl)).2.2.2.2.2.2.2.2 0 [some 'w', none] (by decide)).1⟩

/-- C8. Idempotent stop: when the four ramping variables all equal 1500,
`stop()` changes nothing, and a following `updateMotors` changes none of the
four variables (nor any other part of the state): its only effect is the
emission of the two neutral pulses. -/
theorem idempotent_stop (s : Machine)
    (h1 : s.leftPulse = 1500) (h2 : s.rightPulse = 1500)
    (h3 : s.leftTarget = 1500) (h4 : s.rightTarget = 1500) :
    stop s = s ∧
    (stop s).leftTarget = s.leftTarget ∧ (stop s).rightTarget = s.rightTarget ∧
    (updateMotors (stop s)).leftPulse = s.leftPulse ∧
    (updateMotors (stop s)).rightPulse = s.rightPulse ∧
    (updateMotors (stop s)).leftTarget = s.leftTarget ∧
    (updateMotors (stop s)).rightTarget = s.rightTarget ∧
    updateMotors (stop s) =
      { s with servo := s.servo ++ [(LEFT_MOTOR, 1500), (RIGHT_MOTOR, 1500)] } := by
  have hs : stop s = s := by
    cases s
    simp only [stop, PULSE_NEUTRAL] at *
    simp [h3, h4]
  have hu : updateMotors s =
      { s with servo := s.servo ++ [(LEFT_MOTOR, 1500), (RIGHT_MOTOR, 1500)] } := by
    rw [updateMotors_eq]
    cases s
    simp only at h1 h2 h3 h4
    subst h1 h2 h3 h4
    simp [rampStep]
  rw [hs]
  refine ⟨rfl, rfl, rfl, ?_, ?_, ?_, ?_, hu⟩
  · rw [hu]
  · rw [hu]
  · rw [hu]
  · rw [hu]

/-- C8 at the initial state. -/
theorem idempotent_stop_witness :
    initial.leftPulse = 1500 ∧ initial.rightPulse = 1500 ∧
    initial.leftTarget = 1500 ∧ initial.rightTarget = 1500 ∧
    stop initial = initial ∧
    updateMotors (stop initial) = { initial with servo := [(17, 1500), (18, 1500)] } :=
  ⟨rfl, rfl, rfl, rfl,
   (idempotent_stop initial rfl rfl rfl rfl).1,
   (idempotent_stop initial rfl rfl rfl rfl).2.2.2.2.2.2.2⟩

/-- C9. Intent target table: from every state `stop` gives targets
(1500, 1500), `forward` (1750, 1750), `backward` (1250, 1250), `turnLeft`
(1250, 1750) and `turnRight` (1750, 1250); the resulting targets are the same
from any two prior states. -/
theorem intent_target_table (s : Machine) :
    ((stop s).leftTarget, (stop s).rightTarget) = (1500, 1500) ∧
    ((forward s).leftTarget, (forward s).rightTarget) = (1750, 1750) ∧
    ((backward s).leftTarget, (backward s).rightTarget) = (1250, 1250) ∧
    ((turnLeft s).leftTarget, (turnLeft s).rightTarget) = (1250, 1750) ∧
    ((turnRight s).leftTarget, (turnRight s).rightTarget) = (1750, 1250) ∧
    (∀ (i : Intent) (s' : Machine),
      (i.apply s).leftTarget = (i.apply s').leftTarget ∧
      (i.apply s).rightTarget = (i.apply s').rightTarget) :=
  ⟨rfl, rfl, rfl, rfl, rfl, fun i s' => by cases i <;> exact ⟨rfl, rfl⟩⟩

/-- C10. Single-writer frame: each of the five motion commands leaves
`leftPulse` and `rightPulse` unchanged and issues no `gpioServo` call (it
changes nothing but the two targets), and `updateMotors` leaves `leftTarget`
and `rightTarget` unchanged. -/
theorem single_writer_frame (s : Machine) :
    (∀ f ∈ [stop, forward, backward, turnLeft, turnRight],
      (f s).leftPulse = s.leftPulse ∧ (f s).rightPulse = s.rightPulse ∧
      (f s).servo = s.servo ∧
      f s = { s with leftTarget := (f s).leftTarget, rightTarget := (f s).rightTarget }) ∧
    (updateMotors s).leftTarget = s.leftTarget ∧
    (updateMotors s).rightTarget = s.rightTarget := by
  refine ⟨?_, updateMotors_leftTarget s, updateMotors_rightTarget s⟩
  intro f hf
  simp only [List.mem_cons, List.mem_singleton, List.not_mem_nil, or_false] at hf
  rcases hf with rfl | rfl | rfl | rfl | rfl <;> exact ⟨rfl, rfl, rfl, rfl⟩

theorem handleKey_other (key : Char) (s : Machine)
    (h : key ∉ ['w', 'W', 's', 'S', 'a', 'A', 'd', 'D', ' ', 'q', 'Q']) :
    handleKey key s = s := by
  simp only [List.mem_cons, List.mem_singleton, List.not_mem_nil, or_false, not_or] at h
  obtain ⟨h1, h2, h3, h4, h5, h6, h7, h8, h9, h10, h11⟩ := h
  simp [handleKey, h1, h2, h3, h4, h5, h6, h7, h8, h9, h10, h11]

/-- C11. Unrecognized key or no key: for every key outside
w, W, s, S, a, A, d, D, space, q, Q, and for the zero byte `getKey` returns
when nothing is pending, the `switch` leaves the whole state as it is: the
four ramping variables, the `running` flag and the output. -/
theorem unrecognized_key_noop (key : Char) (s : Machine)
    (h : key ∉ ['w', 'W', 's', 'S', 'a', 'A', 'd', 'D', ' ', 'q', 'Q']) :
    handleKey key s = s ∧
    (handleKey key s).leftPulse = s.leftPulse ∧
    (handleKey key s).rightPulse = s.rightPulse ∧
    (handleKey key s).leftTarget = s.leftTarget ∧
    (handleKey key s).rightTarget = s.rightTarget ∧
    (s.running = true → (handleKey key s).running = true) ∧
    (handleKey key s).cout = s.cout ∧
    getKey none = Char.ofNat 0 ∧
    handleKey (getKey none) s = s := by
  have h0 : handleKey (getKey none) s = s := handleKey_other _ s (by decide)
  rw [handleKey_other key s h]
  exact ⟨rfl, rfl, rfl, rfl, rfl, fun hr => hr, rfl, rfl, h0⟩

/-- C11 at the key `x` in the state the loop starts from. -/
theorem unrecognized_key_noop_witness :
    'x' ∉ ['w', 'W', 's', 'S', 'a', 'A', 'd', 'D', ' ', 'q', 'Q'] ∧
    handleKey 'x' loopEntry = loopEntry :=
  ⟨by decide, (unrecognized_key_noop 'x' loopEntry (by decide)).1⟩

theorem updateMotors_cout (s : Machine) : (updateMotors s).cout = s.cout := by
  rw [updateMotors_eq]

theorem handleKey_cout (key : Char) (s : Machine) :
    (handleKey key s).cout = s.cout ++ specActionLine key := by
  unfold handleKey specActionLine
  split_ifs <;> simp [forward, backward, turnLeft, turnRight, stop, print]

theorem handleKey_running (key : Char) (s : Machine) :
    (handleKey key s).running = if isQuitKey key then false else s.running := by
  by_cases hq : isQuitKey key
  · rw [if_pos hq, handleKey_quit key s hq]
  · rw [if_neg hq]
    unfold isQuitKey at hq
    unfold handleKey
    split_ifs <;> rfl

theorem loopBody_running (poll : Option Char) (s : Machine) :
    (loopBody poll s).running = if isQuitKey (getKey poll) then false else s.running := by
  unfold loopBody
  rw [updateMotors_running, handleKey_running]

theorem loopBody_cout (poll : Option Char) (s : Machine) :
    (loopBody poll s).cout = s.cout ++ specActionLine (getKey poll) := by
  unfold loopBody
  rw [updateMotors_cout, handleKey_cout]

/-- The output of the loop from a running state is the prescribed transcript
of the sampled keys. -/
theorem mainLoop_cout (polls : List (Option Char)) (s : Machine) (h : s.running = true) :
    (mainLoop polls s).cout = s.cout ++ specTranscript (polls.map getKey) := by
  induction polls generalizing s with
  | nil => simp [mainLoop, specTranscript]
  | cons p ps ih =>
    rw [mainLoop, if_pos h, List.map_cons, specTranscript]
    by_cases hq : isQuitKey (getKey p)
    · have hr : (loopBody p s).running = false := by rw [loopBody_running, if_pos hq]
      rw [mainLoop_stopped _ _ hr, loopBody_cout, if_pos hq]
    · have hr : (loopBody p s).running = true := by rw [loopBody_running, if_neg hq, h]
      rw [ih _ hr, loopBody_cout, if_neg hq, List.append_assoc]

theorem main_of_init_ok (init : Int) (polls : List (Option Char)) (h : 0 ≤ init) :
    main init polls =
      if (mainLoop polls loopEntry).running then (mainLoop polls loopEntry, none)
      else (gpioTerminate (stop (mainLoop polls loopEntry)), some 0) := by
  unfold main
  rw [if_neg (not_lt.mpr h)]
  rfl

/-- C12. Transcript: after a successful initialise, for every finite sequence
of per-tick samples the chunks written to standard output are the banner
followed by exactly one line per accepted key in tick order (w/W Forward,
s/S Backward, a/A Turn Left, d/D Turn Right, space Stop, q/Q Quit), up to and
including the first Quit; other keys and empty ticks contribute nothing. -/
theorem stdout_transcript (init : Int) (polls : List (Option Char)) (h : 0 ≤ init) :
    (main init polls).1.cout
      = ["=== Sabertooth WASD Control (Smooth Ramp) ===\n", "W - Forward\n", "S - Backward\n",
         "A - Turn Left\n", "D - Turn Right\n", "Space - Stop\n", "Q - Quit\n\n"]
        ++ specTranscript (polls.map getKey) := by
  have hc := mainLoop_cout polls loopEntry rfl
  rw [main_of_init_ok init polls h]
  split_ifs
  · exact hc
  · exact hc

/-- C12 on the samples w, nothing, x, Q, a: two lines after the banner, and
the key after Quit is never read. -/
theorem stdout_transcript_witness :
    (0 : Int) ≤ 0 ∧
    specTranscript ([some 'w', none, some 'x', some 'Q', some 'a'].map getKey)
      = ["Forward\n", "Quit\n"] ∧
    (main 0 [some 'w', none, some 'x', some 'Q', some 'a']).1.cout
      = ["=== Sabertooth WASD Control (Smooth Ramp) ===\n", "W - Forward\n", "S - Backward\n",
         "A - Turn Left\n", "D - Turn Right\n", "Space - Stop\n", "Q - Quit\n\n"]
        ++ specTranscript ([some 'w', none, some 'x', some 'Q', some 'a'].map getKey) :=
  ⟨le_refl 0, by decide,
   stdout_transcript 0 [some 'w', none, some 'x', some 'Q', some 'a'] (le_refl 0)⟩

theorem rampStep_of_defined (p t : Int) (h : StepDefined p t) :
    rampStep p t = if p < t then min (p + 10) t else if p > t then max (p - 10) t else p := by
  obtain ⟨hp, hup, hdown⟩ := h
  unfold IsInt INT_MIN INT_MAX at hp
  unfold INT_MAX at hup
  unfold INT_MIN at hdown
  unfold rampStep wrapInt
  split_ifs with h1 h2
  · have := hup h1
    omega
  · have := hdown h2
    omega
  · rfl

theorem stepDefined_of_inBounds (p t : Int) (hp : InBounds p) : StepDefined p t := by
  unfold InBounds PULSE_REVERSE PULSE_FORWARD at hp
  unfold StepDefined IsInt INT_MIN INT_MAX
  refine ⟨⟨by omega, by omega⟩, fun _ => by omega, fun _ => by omega⟩

theorem rampStep_rate (p t : Int) (h : StepDefined p t) : |rampStep p t - p| ≤ 10 := by
  rw [rampStep_of_defined p t h, abs_le]
  split_ifs <;> constructor <;> omega

theorem allInBounds_initial : AllInBounds initial :=
  ⟨inBounds_neutral, inBounds_neutral, inBounds_neutral, inBounds_neutral⟩

theorem handleKey_allInBounds (key : Char) (s : Machine) (h : AllInBounds s) :
    AllInBounds (handleKey key s) := by
  obtain ⟨h1, h2, h3, h4⟩ := h
  unfold handleKey
  split_ifs <;> refine ⟨h1, h2, ?_, ?_⟩ <;>
    first
    | exact inBounds_neutral
    | exact inBounds_forward
    | exact inBounds_reverse
    | exact h3
    | exact h4

theorem mainLoop_allInBounds (polls : List (Option Char)) (s : Machine) (h : AllInBounds s) :
    AllInBounds (mainLoop polls s) := by
  induction polls generalizing s with
  | nil => exact h
  | cons p ps ih =>
    rw [mainLoop]
    split_ifs
    · exact ih _ (updateMotors_allInBounds _ (handleKey_allInBounds _ s h))
    · exact h

/-- C13. Rate limit: whatever the distance between current and target, one
`updateMotors` changes a channel's current by at most 10 in absolute value.
This holds in every state in which the one sum the code evaluates on that
channel is defined in `int`, hence in every state within the pulse bounds, in
every state reachable from start by motion commands and `updateMotors` calls,
and in every state the loop of `main` reaches. -/
theorem rate_limit :
    (∀ (s : Machine) (ch : Channel), StepDefined (s.current ch) (s.target ch) →
      |(updateMotors s).current ch - s.current ch| ≤ 10) ∧
    (∀ s : Machine, InBounds s.leftPulse → InBounds s.rightPulse →
      |(updateMotors s).leftPulse - s.leftPulse| ≤ 10 ∧
      |(updateMotors s).rightPulse - s.rightPulse| ≤ 10) ∧
    (∀ ops : List Op,
      |(updateMotors (runOps ops initial)).leftPulse - (runOps ops initial).leftPulse| ≤ 10 ∧
      |(updateMotors (runOps ops initial)).rightPulse - (runOps ops initial).rightPulse| ≤ 10) ∧
    (∀ polls : List (Option Char),
      |(updateMotors (mainLoop polls loopEntry)).leftPulse
          - (mainLoop polls loopEntry).leftPulse| ≤ 10 ∧
      |(updateMotors (mainLoop polls loopEntry)).rightPulse
          - (mainLoop polls loopEntry).rightPulse| ≤ 10) := by
  have hb : ∀ s : Machine, InBounds s.leftPulse → InBounds s.rightPulse →
      |(updateMotors s).leftPulse - s.leftPulse| ≤ 10 ∧
      |(updateMotors s).rightPulse - s.rightPulse| ≤ 10 := by
    intro s hl hr
    rw [updateMotors_leftPulse, updateMotors_rightPulse]
    exact ⟨rampStep_rate _ _ (stepDefined_of_inBounds _ _ hl),
      rampStep_rate _ _ (stepDefined_of_inBounds _ _ hr)⟩
  refine ⟨?_, hb, ?_, ?_⟩
  · intro s ch h
    rw [updateMotors_current]
    exact rampStep_rate _ _ h
  · intro ops
    obtain ⟨h1, h2, _, _⟩ := runOps_allInBounds ops initial allInBounds_initial
    exact hb _ h1 h2
  · intro polls
    obtain ⟨h1, h2, _, _⟩ := mainLoop_allInBounds polls loopEntry allInBounds_initial
    exact hb _ h1 h2

/-- C13 at the left channel of a state 250 below its target, and at a left
channel near the top of the `int` range far above its target. -/
theorem rate_limit_witness :
    StepDefined ((forward initial).current .left) ((forward initial).target .left) ∧
    |(updateMotors (forward initial)).current .left - (forward initial).current .left| ≤ 10 ∧
    StepDefined (highAboveTarget.current .left) (highAboveTarget.target .left) ∧
    |(updateMotors highAboveTarget).current .left - highAboveTarget.current .left| ≤ 10 :=
  ⟨by decide, rate_limit.1 (forward initial) .left (by decide),
   by decide, rate_limit.1 highAboveTarget .left (by decide)⟩

theorem loopBody_servo_length (poll : Option Char) (s : Machine) :
    (loopBody poll s).servo.length = s.servo.length + 2 := by
  have hk : (handleKey (getKey poll) s).servo = s.servo := by
    unfold handleKey
    split_ifs <;> rfl
  unfold loopBody
  rw [updateMotors_servo, hk]
  simp

/-- While no quit key is sampled the loop keeps running, one tick per sample,
and the remaining samples are processed from the state it has reached. -/
theorem mainLoop_no_quit (pre rest : List (Option Char)) (s : Machine)
    (hrun : s.running = true) (hpre : ∀ p ∈ pre, ¬ isQuitKey (getKey p)) :
    (mainLoop pre s).running = true ∧
    (mainLoop pre s).servo.length = s.servo.length + 2 * pre.length ∧
    mainLoop (pre ++ rest) s = mainLoop rest (mainLoop pre s) := by
  induction pre generalizing s with
  | nil => exact ⟨hrun, by simp [mainLoop], rfl⟩
  | cons p ps ih =>
    have hp : ¬ isQuitKey (getKey p) := hpre p (List.mem_cons_self p ps)
    have hr : (loopBody p s).running = true := by rw [loopBody_running, if_neg hp, hrun]
    obtain ⟨h1, h2, h3⟩ := ih (loopBody p s) hr
      (fun q hq => hpre q (List.mem_cons_of_mem p hq))
    rw [List.cons_append, mainLoop, if_pos hrun, mainLoop, if_pos hrun]
    refine ⟨h1, ?_, h3⟩
    rw [h2, loopBody_servo_length, List.length_cons]
    omega

/-- C14. Exit code and fail-closed start: when `gpioInitialise` returns a
negative value `main` returns 1 with nothing written to standard output, the
loop not entered and no `gpioServo` call; when it succeeds and the samples
contain `q` or `Q`, `main` returns 0, and it does so right after the tick that
handles the first such key: later samples are not read. -/
theorem exit_code (init : Int) (polls : List (Option Char)) :
    (init < 0 →
      (main init polls).2 = some 1 ∧
      (main init polls).1.cout = [] ∧
      (main init polls).1.servo = [] ∧
      (main init polls).1.running = false ∧
      (main init polls).1 = { initial with cerr := ["Failed to initialize pigpio.\n"] }) ∧
    (0 ≤ init →
      ((∃ p ∈ polls, isQuitKey (getKey p)) → (main init polls).2 = some 0) ∧
      (∀ (pre rest : List (Option Char)) (key : Char),
        polls = pre ++ some key :: rest →
        (∀ p ∈ pre, ¬ isQuitKey (getKey p)) → isQuitKey key →
        (main init polls).2 = some 0 ∧
        (main init polls).1
          = gpioTerminate (stop (loopBody (some key) (mainLoop pre loopEntry))) ∧
        (main init polls).1.servo.length = 2 * (pre.length + 1))) := by
  constructor
  · intro h
    unfold main
    rw [if_pos h]
    exact ⟨rfl, rfl, rfl, rfl, rfl⟩
  · intro h
    constructor
    · rintro ⟨p, hp, hq⟩
      obtain ⟨pre, rest, rfl⟩ := List.append_of_mem hp
      cases p with
      | none => exact absurd hq (by decide)
      | some key =>
        have hfin := mainLoop_quit_running pre rest key loopEntry hq
        rw [main_of_init_ok _ _ h, hfin]
        rfl
    · intro pre rest key hpolls hpre hkey
      subst hpolls
      obtain ⟨h1, h2, h3⟩ := mainLoop_no_quit pre (some key :: rest) loopEntry rfl hpre
      have hr : (loopBody (some key) (mainLoop pre loopEntry)).running = false := by
        rw [loopBody_running]
        exact if_pos hkey
      have hloop : mainLoop (pre ++ some key :: rest) loopEntry
          = loopBody (some key) (mainLoop pre loopEntry) := by
        rw [h3, mainLoop, if_pos h1, mainLoop_stopped _ _ hr]
      rw [main_of_init_ok _ _ h, hloop, hr]
      refine ⟨rfl, rfl, ?_⟩
      show (loopBody (some key) (mainLoop pre loopEntry)).servo.length = 2 * (pre.length + 1)
      rw [loopBody_servo_length, h2]
      have : loopEntry.servo.length = 0 := rfl
      omega

/-- C14 on a failed initialise (result -1) and on the samples w, nothing, q,
a after a successful one. -/
theorem exit_code_witness :
    (main (-1) [some 'w', some 'q']).2 = some 1 ∧
    (main (-1) [some 'w', some 'q']).1.servo = [] ∧
    (main 0 [some 'w', none, some 'q', some 'a']).2 = some 0 ∧
    (main 0 [some 'w', none, some 'q', some 'a']).1.servo.length = 6 :=
  ⟨((exit_code (-1) [some 'w', some 'q']).1 (by decide)).1,
   ((exit_code (-1) [some 'w', some 'q']).1 (by decide)).2.2.1,
   (((exit_code 0 [some 'w', none, some 'q', some 'a']).2 (by decide)).2
      [some 'w', none] [some 'a'] 'q' rfl (by decide) (by decide)).1,
   (((exit_code 0 [some 'w', none, some 'q', some 'a']).2 (by decide)).2
      [some 'w', none] [some 'a'] 'q' rfl (by decide) (by decide)).2.2⟩

/-- C15. Abrupt final value on Quit: from every running state the tick that
handles `q` or `Q` runs `updateMotors` exactly once and the loop ends, so the
last pulses emitted are the one-step advances of the two currents toward 1500;
such an advance differs from 1500 whenever the current is more than 10 away
from 1500; and for the samples w, 24 empty ticks, q the program exits with
last emitted pulses (1740, 1740). -/
theorem quit_abrupt_final (s : Machine) (key : Char) (rest : List (Option Char))
    (hrun : s.running = true) (hkey : key = 'q' ∨ key = 'Q') :
    (mainLoop (some key :: rest) s).servo
      = s.servo ++ [(LEFT_MOTOR, rampStep s.leftPulse 1500),
                    (RIGHT_MOTOR, rampStep s.rightPulse 1500)] ∧
    (mainLoop (some key :: rest) s).leftPulse = rampStep s.leftPulse 1500 ∧
    (mainLoop (some key :: rest) s).rightPulse = rampStep s.rightPulse 1500 ∧
    (∀ p : Int, IsInt p →
      rampStep p 1500
        = if p < 1500 then min (p + 10) 1500 else if p > 1500 then max (p - 10) 1500 else p) ∧
    (∀ p : Int, IsInt p → 10 < |p - 1500| → rampStep p 1500 ≠ 1500) ∧
    (main 0 forwardThenQuit).2 = some 0 ∧
    (main 0 forwardThenQuit).1.servo.drop 50 = [(17, 1740), (18, 1740)] ∧
    (main 0 forwardThenQuit).1.servo.length = 52 := by
  have hq := handleKey_quit key s hkey
  have hr : (updateMotors (handleKey key s)).running = false := by
    rw [updateMotors_running, hq]
  have hloop : mainLoop (some key :: rest) s = updateMotors (handleKey key s) := by
    rw [mainLoop, if_pos hrun]
    exact mainLoop_stopped _ _ hr
  have hstep : ∀ p : Int, IsInt p →
      rampStep p 1500
        = if p < 1500 then min (p + 10) 1500 else if p > 1500 then max (p - 10) 1500 else p :=
    fun p hp => rampStep_toward p 1500 hp inBounds_neutral
  refine ⟨?_, ?_, ?_, hstep, ?_, ?_, ?_, ?_⟩
  · rw [hloop, updateMotors_servo, hq]; rfl
  · rw [hloop, updateMotors_leftPulse, hq]; rfl
  · rw [hloop, updateMotors_rightPulse, hq]; rfl
  · intro p hp hfar
    rw [hstep p hp]
    rw [lt_abs] at hfar
    split_ifs <;> omega
  · set_option maxRecDepth 100000 in decide
  · set_option maxRecDepth 100000 in decide
  · set_option maxRecDepth 100000 in decide

/-- C15 at the state reached by w and 24 empty ticks, quit with `q`. -/
theorem quit_abrupt_final_witness :
    (mainLoop (some 'w' :: List.replicate 24 none) loopEntry).running = true ∧
    (mainLoop [some 'q'] (mainLoop (some 'w' :: List.replicate 24 none) loopEntry)).leftPulse
      = rampStep (mainLoop (some 'w' :: List.replicate 24 none) loopEntry).leftPulse 1500 :=
  ⟨by set_option maxRecDepth 100000 in decide,
   (quit_abrupt_final (mainLoop (some 'w' :: List.replicate 24 none) loopEntry) 'q' []
      (by set_option maxRecDepth 100000 in decide) (Or.inl rfl)).2.1⟩

theorem rampStep_snap (p t : Int) (h : StepDefined p t) (hnear : |t - p| ≤ 10) :
    rampStep p t = t := by
  rw [rampStep_of_defined p t h]
  rw [abs_le] at hnear
  split_ifs <;> omega

theorem rampStep_far (p t : Int) (hp : IsInt p) (ht : IsInt t) (hfar : 10 < |t - p|) :
    (p < t → rampStep p t = p + 10) ∧ (t < p → rampStep p t = p - 10) := by
  unfold IsInt INT_MIN INT_MAX at hp ht
  rw [lt_abs] at hfar
  unfold rampStep wrapInt
  constructor
  · intro hlt
    rw [if_pos hlt]
    omega
  · intro hgt
    rw [if_neg (not_lt.mpr (le_of_lt hgt)), if_pos hgt]
    omega

theorem isInt_of_inBounds (p : Int) (hp : InBounds p) : IsInt p := by
  unfold InBounds PULSE_REVERSE PULSE_FORWARD at hp
  unfold IsInt INT_MIN INT_MAX
  omega

theorem snap_of_allInBounds (s : Machine) (h : AllInBounds s) (ch : Channel) :
    (|s.target ch - s.current ch| ≤ 10 → (updateMotors s).current ch = s.target ch) ∧
    (10 < |s.target ch - s.current ch| →
      (s.current ch < s.target ch → (updateMotors s).current ch = s.current ch + 10) ∧
      (s.target ch < s.current ch → (updateMotors s).current ch = s.current ch - 10)) := by
  obtain ⟨h1, h2, h3, h4⟩ := h
  have hc : InBounds (s.current ch) := by
    cases ch
    · exact h1
    · exact h2
  have ht : InBounds (s.target ch) := by
    cases ch
    · exact h3
    · exact h4
  rw [updateMotors_current]
  exact ⟨rampStep_snap _ _ (stepDefined_of_inBounds _ _ hc),
    rampStep_far _ _ (isInt_of_inBounds _ hc) (isInt_of_inBounds _ ht)⟩

/-- C16. Snap at the end of a ramp: for every channel state with
`|target - current| <= 10` one `updateMotors` makes the current equal to the
target exactly, and for every channel state with `|target - current| > 10` it
moves the current by exactly 10 in the direction of the target.  The first
half holds wherever the one sum the code evaluates on the channel is defined
in `int`, the second for all `int` values; both hold in every state reachable
from start and in every state the loop of `main` reaches. -/
theorem snap_or_step :
    (∀ (s : Machine) (ch : Channel), StepDefined (s.current ch) (s.target ch) →
      |s.target ch - s.current ch| ≤ 10 →
      (updateMotors s).current ch = s.target ch) ∧
    (∀ (s : Machine) (ch : Channel), IsInt (s.current ch) → IsInt (s.target ch) →
      10 < |s.target ch - s.current ch| →
      (s.current ch < s.target ch → (updateMotors s).current ch = s.current ch + 10) ∧
      (s.target ch < s.current ch → (updateMotors s).current ch = s.current ch - 10)) ∧
    (∀ (ops : List Op) (ch : Channel),
      (|(runOps ops initial).target ch - (runOps ops initial).current ch| ≤ 10 →
        (updateMotors (runOps ops initial)).current ch = (runOps ops initial).target ch) ∧
      (10 < |(runOps ops initial).target ch - (runOps ops initial).current ch| →
        ((runOps ops initial).current ch < (runOps ops initial).target ch →
          (updateMotors (runOps ops initial)).current ch
            = (runOps ops initial).current ch + 10) ∧
        ((runOps ops initial).target ch < (runOps ops initial).current ch →
          (updateMotors (runOps ops initial)).current ch
            = (runOps ops initial).current ch - 10))) ∧
    (∀ (polls : List (Option Char)) (ch : Channel),
      (|(mainLoop polls loopEntry).target ch - (mainLoop polls loopEntry).current ch| ≤ 10 →
        (updateMotors (mainLoop polls loopEntry)).current ch
          = (mainLoop polls loopEntry).target ch) ∧
      (10 < |(mainLoop polls loopEntry).target ch - (mainLoop polls loopEntry).current ch| →
        ((mainLoop polls loopEntry).current ch < (mainLoop polls loopEntry).target ch →
          (updateMotors (mainLoop polls loopEntry)).current ch
            = (mainLoop polls loopEntry).current ch + 10) ∧
        ((mainLoop polls loopEntry).target ch < (mainLoop polls loopEntry).current ch →
          (updateMotors (mainLoop polls loopEntry)).current ch
            = (mainLoop polls loopEntry).current ch - 10))) := by
  refine ⟨?_, ?_, ?_, ?_⟩
  · intro s ch h hnear
    rw [updateMotors_current]
    exact rampStep_snap _ _ h hnear
  · intro s ch hc ht hfar
    rw [updateMotors_current]
    exact rampStep_far _ _ hc ht hfar
  · intro ops ch
    exact snap_of_allInBounds _ (runOps_allInBounds ops initial allInBounds_initial) ch
  · intro polls ch
    exact snap_of_allInBounds _ (mainLoop_allInBounds polls loopEntry allInBounds_initial) ch

/-- C16 at a right channel three below its target, at a left channel 250
below its target, and at a left channel near the top of the `int` range five
above its target. -/
theorem snap_or_step_witness :
    (updateMotors { initial with rightPulse := 1747, rightTarget := 1750 }).current .right
      = 1750 ∧
    (updateMotors (forward initial)).current .left = (forward initial).current .left + 10 ∧
    StepDefined (highNearTarget.current .left) (highNearTarget.target .left) ∧
    (updateMotors highNearTarget).current .left = highNearTarget.target .left :=
  ⟨snap_or_step.1 { initial with rightPulse := 1747, rightTarget := 1750 } .right
      (by decide) (by decide),
   (snap_or_step.2.1 (forward initial) .left (by decide) (by decide) (by decide)).1
      (by decide),
   by decide,
   snap_or_step.1 highNearTarget .left (by decide) (by decide)⟩

/-- C17. Output emission: one `updateMotors` issues exactly two `gpioServo`
calls, first pin 17 with the updated `leftPulse`, then pin 18 with the updated
`rightPulse`; after `forward()` from start these are 1510, neither the old
current 1500 nor the target 1750. -/
theorem output_emission (s : Machine) :
    (updateMotors s).servo
      = s.servo ++ [(17, (updateMotors s).leftPulse), (18, (updateMotors s).rightPulse)] ∧
    LEFT_MOTOR = 17 ∧ RIGHT_MOTOR = 18 ∧
    (updateMotors (forward initial)).servo = [(17, 1510), (18, 1510)] := by
  refine ⟨?_, rfl, rfl, by decide⟩
  rw [updateMotors_servo, updateMotors_leftPulse, updateMotors_rightPulse]
  rfl

theorem rampTicks_le_fifty (c t : Int) (hc : InBounds c) (ht : InBounds t) :
    rampTicks c t ≤ 50 := by
  unfold InBounds PULSE_REVERSE PULSE_FORWARD at hc ht
  unfold rampTicks
  omega

/-- C18. Worst-case ramp length: from every state reachable from start by
motion commands and `updateMotors` calls, after one more motion command both
channels equal their targets after every number of `updateMotors` calls from
50 on; and the bound is met: after `forward()` has converged at (1750, 1750),
`backward()` needs exactly 50 calls. -/
theorem worst_case_ramp (ops : List Op) (i : Intent) :
    (∀ m, 50 ≤ m →
      (updates m (i.apply (runOps ops initial))).leftPulse
        = (i.apply (runOps ops initial)).leftTarget ∧
      (updates m (i.apply (runOps ops initial))).rightPulse
        = (i.apply (runOps ops initial)).rightTarget) ∧
    (forwardConverged.leftPulse, forwardConverged.rightPulse) = (1750, 1750) ∧
    ((backward forwardConverged).leftTarget, (backward forwardConverged).rightTarget)
      = (1250, 1250) ∧
    ((updates 50 (backward forwardConverged)).leftPulse,
      (updates 50 (backward forwardConverged)).rightPulse) = (1250, 1250) ∧
    (∀ k, k < 50 →
      (updates k (backward forwardConverged)).leftPulse ≠ 1250 ∧
      (updates k (backward forwardConverged)).rightPulse ≠ 1250) := by
  have hb : AllInBounds (i.apply (runOps ops initial)) :=
    intent_allInBounds i _
      (runOps_allInBounds ops initial
        ⟨inBounds_neutral, inBounds_neutral, inBounds_neutral, inBounds_neutral⟩)
  obtain ⟨b1, b2, b3, b4⟩ := hb
  have e1 : (backward forwardConverged).leftPulse = 1750 := by
    set_option maxRecDepth 100000 in decide
  have e2 : (backward forwardConverged).rightPulse = 1750 := by
    set_option maxRecDepth 100000 in decide
  have e3 : (backward forwardConverged).leftTarget = 1250 := rfl
  have e4 : (backward forwardConverged).rightTarget = 1250 := rfl
  have hdown := rampIter_converges 1750 1250 (by decide) (by decide)
  have n50 : rampTicks 1750 1250 = 50 := by decide
  rw [n50] at hdown
  refine ⟨?_, ?_, ?_, ?_, ?_⟩
  · intro m hm
    constructor
    · rw [updates_leftPulse]
      exact (rampIter_converges _ _ b1 b3).2.2 m (le_trans (rampTicks_le_fifty _ _ b1 b3) hm)
    · rw [updates_rightPulse]
      exact (rampIter_converges _ _ b2 b4).2.2 m (le_trans (rampTicks_le_fifty _ _ b2 b4) hm)
  · have f1 : forwardConverged.leftPulse = 1750 := by
      set_option maxRecDepth 100000 in decide
    have f2 : forwardConverged.rightPulse = 1750 := by
      set_option maxRecDepth 100000 in decide
    rw [f1, f2]
  · rw [e3, e4]
  · rw [updates_leftPulse, updates_rightPulse, e1, e2, e3, e4, hdown.1]
  · intro k hk
    rw [updates_leftPulse, updates_rightPulse, e1, e2, e3, e4]
    exact ⟨hdown.2.1 k hk, hdown.2.1 k hk⟩

/-- C19. Key case-insensitivity: for each of the letters w, s, a, d, q the
lower-case and the upper-case key give the same state after the `switch`
(targets, currents, `running`, output written) and after the whole tick. -/
theorem key_case_insensitive (s : Machine) :
    handleKey 'w' s = handleKey 'W' s ∧
    handleKey 's' s = handleKey 'S' s ∧
    handleKey 'a' s = handleKey 'A' s ∧
    handleKey 'd' s = handleKey 'D' s ∧
    handleKey 'q' s = handleKey 'Q' s ∧
    loopBody (some 'w') s = loopBody (some 'W') s ∧
    loopBody (some 's') s = loopBody (some 'S') s ∧
    loopBody (some 'a') s = loopBody (some 'A') s ∧
    loopBody (some 'd') s = loopBody (some 'D') s ∧
    loopBody (some 'q') s = loopBody (some 'Q') s ∧
    (handleKey 'w' s).cout = s.cout ++ ["Forward\n"] ∧
    (handleKey 's' s).cout = s.cout ++ ["Backward\n"] ∧
    (handleKey 'a' s).cout = s.cout ++ ["Turn Left\n"] ∧
    (handleKey 'd' s).cout = s.cout ++ ["Turn Right\n"] ∧
    (handleKey 'q' s).cout = s.cout ++ ["Quit\n"] := by
  have hw : handleKey 'w' s = handleKey 'W' s := by simp [handleKey]
  have hs : handleKey 's' s = handleKey 'S' s := by simp [handleKey]
  have ha : handleKey 'a' s = handleKey 'A' s := by simp [handleKey]
  have hd : handleKey 'd' s = handleKey 'D' s := by simp [handleKey]
  have hq : handleKey 'q' s = handleKey 'Q' s := by simp [handleKey]
  refine ⟨hw, hs, ha, hd, hq, ?_, ?_, ?_, ?_, ?_, ?_, ?_, ?_, ?_, ?_⟩
  · simp only [loopBody, getKey, hw]
  · simp only [loopBody, getKey, hs]
  · simp only [loopBody, getKey, ha]
  · simp only [loopBody, getKey, hd]
  · simp only [loopBody, getKey, hq]
  · rw [handleKey_cout]; rfl
  · rw [handleKey_cout]; rfl
  · rw [handleKey_cout]; rfl
  · rw [handleKey_cout]; rfl
  · rw [handleKey_cout]; rfl

theorem granular_initial : Granular initial := by
  refine ⟨⟨inBounds_neutral, inBounds_neutral, inBounds_neutral, inBounds_neutral⟩, ?_, ?_, ?_, ?_⟩ <;>
    decide

theorem rampStep_granular (p t : Int) (hp : InBounds p) (ht : InBounds t)
    (dp : 10 ∣ p) (dt : 10 ∣ t) :
    10 ∣ rampStep p t ∧
    (p < t → min (wrapInt (p + 10)) t = p + 10) ∧
    (p > t → max (wrapInt (p - 10)) t = p - 10) ∧
    (rampStep p t - p = 10 ∨ rampStep p t - p = 0 ∨ rampStep p t - p = -10) := by
  unfold InBounds PULSE_REVERSE PULSE_FORWARD at hp ht
  have hup : p < t → min (wrapInt (p + 10)) t = p + 10 := by
    intro h; unfold wrapInt; omega
  have hdown : p > t → max (wrapInt (p - 10)) t = p - 10 := by
    intro h; unfold wrapInt; omega
  refine ⟨?_, hup, hdown, ?_⟩
  · unfold rampStep
    split_ifs with h1 h2
    · rw [hup h1]; omega
    · rw [hdown h2]; omega
    · exact dp
  · unfold rampStep
    split_ifs with h1 h2
    · rw [hup h1]; omega
    · rw [hdown h2]; omega
    · omega

theorem granular_intent (i : Intent) (s : Machine) (h : Granular s) :
    Granular (i.apply s) := by
  obtain ⟨hb, d1, d2, _, _⟩ := h
  refine ⟨intent_allInBounds i s hb, ?_, ?_, ?_, ?_⟩
  · cases i <;> exact d1
  · cases i <;> exact d2
  · cases i <;> first
      | exact (by decide : (10 : Int) ∣ PULSE_NEUTRAL)
      | exact (by decide : (10 : Int) ∣ PULSE_FORWARD)
      | exact (by decide : (10 : Int) ∣ PULSE_REVERSE)
  · cases i <;> first
      | exact (by decide : (10 : Int) ∣ PULSE_NEUTRAL)
      | exact (by decide : (10 : Int) ∣ PULSE_FORWARD)
      | exact (by decide : (10 : Int) ∣ PULSE_REVERSE)

theorem granular_updateMotors (s : Machine) (h : Granular s) :
    Granular (updateMotors s) := by
  obtain ⟨hb, d1, d2, d3, d4⟩ := h
  have hb2 := updateMotors_allInBounds s hb
  obtain ⟨b1, b2, b3, b4⟩ := hb
  refine ⟨hb2, ?_, ?_, ?_, ?_⟩
  · rw [updateMotors_leftPulse]; exact (rampStep_granular _ _ b1 b3 d1 d3).1
  · rw [updateMotors_rightPulse]; exact (rampStep_granular _ _ b2 b4 d2 d4).1
  · rw [updateMotors_leftTarget]; exact d3
  · rw [updateMotors_rightTarget]; exact d4

theorem granular_runOps (ops : List Op) (s : Machine) (h : Granular s) :
    Granular (runOps ops s) := by
  induction ops generalizing s with
  | nil => exact h
  | cons op ops ih =>
    apply ih
    cases op with
    | intent i => exact granular_intent i s h
    | update => exact granular_updateMotors s h

/-- C20. Step granularity: in every state reachable from start by motion
commands and `updateMotors` calls, `leftPulse` and `rightPulse` are multiples
of 10; so the next `updateMotors` changes each current by exactly 10 or by 0,
and where a clamp is evaluated `std::min` returns `current + 10` and
`std::max` returns `current - 10`. -/
theorem step_granularity (ops : List Op) :
    10 ∣ (runOps ops initial).leftPulse ∧
    10 ∣ (runOps ops initial).rightPulse ∧
    (∀ ch : Channel,
      ((updateMotors (runOps ops initial)).current ch - (runOps ops initial).current ch = 10 ∨
        (updateMotors (runOps ops initial)).current ch - (runOps ops initial).current ch = 0 ∨
        (updateMotors (runOps ops initial)).current ch - (runOps ops initial).current ch = -10) ∧
      ((runOps ops initial).current ch < (runOps ops initial).target ch →
        min (wrapInt ((runOps ops initial).current ch + 10)) ((runOps ops initial).target ch)
          = (runOps ops initial).current ch + 10) ∧
      ((runOps ops initial).current ch > (runOps ops initial).target ch →
        max (wrapInt ((runOps ops initial).current ch - 10)) ((runOps ops initial).target ch)
          = (runOps ops initial).current ch - 10)) := by
  obtain ⟨⟨b1, b2, b3, b4⟩, d1, d2, d3, d4⟩ := granular_runOps ops initial granular_initial
  refine ⟨d1, d2, ?_⟩
  intro ch
  rw [updateMotors_current]
  cases ch
  · obtain ⟨_, h2, h3, h4⟩ := rampStep_granular _ _ b1 b3 d1 d3
    exact ⟨h4, h2, h3⟩
  · obtain ⟨_, h2, h3, h4⟩ := rampStep_granular _ _ b2 b4 d2 d4
    exact ⟨h4, h2, h3⟩

end MotorControls
